import Mathlib

/-!
Shallow embedding of the `get-convex/self-hosting` static-hosting system.

The embedding covers:
- the `staticAssets` / `deploymentInfo` document tables and the component
  mutations and queries of `src/component/lib.ts` (`getByPath`, `recordAsset`,
  `gcOldAssets`, `deleteAllAssets`, `getCurrentDeployment`,
  `setCurrentDeployment`);
- the upload orchestrator of `src/cli/upload.ts` (`uploadWithConcurrency` and
  the tail of `main`), at two granularities: a phase-level event-trace model
  of one deploy invocation, and a fine-grained model of the bounded
  worker-pool loop (start / await-race / drain) used for the transfer phase.

Tables are modelled as lists of rows in `_creationTime` order; `ctx.db.delete`
on an id removes the rows carrying that id; Convex guarantees ids are unique,
which theorems assume explicitly where it matters.  JavaScript truthiness of
optional string arguments (`if (args.storageId)`) is modelled by `truthy`.
-/

set_option autoImplicit false

namespace SelfHosting

/-- One row of the `staticAssets` table (schema in `src/component/schema.ts`):
`path`, optional `storageId`, optional `blobId`, `contentType`,
`deploymentId`, plus the system `_id` field (modelled as a `Nat`). -/
structure StaticAsset where
  id : Nat
  path : String
  storageId : Option String
  blobId : Option String
  contentType : String
  deploymentId : String
  deriving Repr, DecidableEq

/-- The `staticAssets` table, rows in `_creationTime` (insertion) order. -/
abbrev Registry := List StaticAsset

/-- JavaScript truthiness of an optional string: absent and the empty string
are falsy, every other string is truthy. -/
def truthy : Option String → Bool
  | none => false
  | some s => s != ""

/-- The field value stored by a spread like
`...(args.storageId ? brace storageId: args.storageId brace : brace brace)`:
the argument when truthy, otherwise the field is absent. -/
def storedOpt (o : Option String) : Option String :=
  if truthy o then o else none

/-- Rows of the registry living at a given path (the `by_path` index). -/
def pathRows (db : Registry) (p : String) : List StaticAsset :=
  db.filter (fun a => a.path == p)

/-- `ctx.db.query("staticAssets").withIndex("by_path", ...).unique()`:
no row gives `none`, one row gives it, two or more rows throw. -/
def uniqueByPath (db : Registry) (p : String) : Except String (Option StaticAsset) :=
  match pathRows db p with
  | [] => .ok none
  | [a] => .ok (some a)
  | _ => .error "unique: multiple rows"

/-- The `getByPath` query of `src/component/lib.ts`. -/
def getByPath (db : Registry) (p : String) : Except String (Option StaticAsset) :=
  uniqueByPath db p

/-- Arguments of the `recordAsset` mutation. -/
structure RecordArgs where
  path : String
  storageId : Option String
  blobId : Option String
  contentType : String
  deploymentId : String
  deriving Repr, DecidableEq

/-- The `recordAsset` mutation of `src/component/lib.ts`: look up the unique
existing row at `args.path`, remember its `storageId`/`blobId` (absent fields
become `null`), delete it, insert the new row (fields included only when the
corresponding argument is truthy), and return the old ids.  `nextId` is the
`_id` assigned to the inserted row. -/
def recordAsset (db : Registry) (nextId : Nat) (args : RecordArgs) :
    Except String (Registry × Option String × Option String) := do
  let existing ← uniqueByPath db args.path
  let oldStorageId := match existing with
    | some a => a.storageId
    | none => none
  let oldBlobId := match existing with
    | some a => a.blobId
    | none => none
  let afterDelete := match existing with
    | some a => db.filter (fun r => r.id != a.id)
    | none => db
  let newRow : StaticAsset :=
    { id := nextId
      path := args.path
      storageId := storedOpt args.storageId
      blobId := storedOpt args.blobId
      contentType := args.contentType
      deploymentId := args.deploymentId }
  return (afterDelete ++ [newRow], oldStorageId, oldBlobId)

/-- `storageIds.push(asset.storageId)` guarded by `if (asset.storageId)`:
prepend the value to the accumulator only when the field is truthy. -/
def pushIfTruthy (o : Option String) (l : List String) : List String :=
  match o with
  | some s => if s == "" then l else s :: l
  | none => l

/-- The loop body of `gcOldAssets`: walk the collected table in order; for
every row of a different deployment, push its truthy `storageId` and `blobId`
and record its `_id` for deletion.  Returns
`(storageIds, blobIds, deleted ids)`. -/
def gcLoop (d : String) : Registry → List String × List String × List Nat
  | [] => ([], [], [])
  | a :: rest =>
    let r := gcLoop d rest
    if a.deploymentId != d then
      (pushIfTruthy a.storageId r.1, pushIfTruthy a.blobId r.2.1, a.id :: r.2.2)
    else r

/-- Result of `gcOldAssets` together with the table it leaves behind. -/
structure GcResult where
  db : Registry
  storageIds : List String
  blobIds : List String
  deriving Repr, DecidableEq

/-- The `gcOldAssets` mutation of `src/component/lib.ts`: collect the table,
and for every asset whose `deploymentId` differs from the argument, push its
truthy storage references and delete the row by `_id`. -/
def gcOldAssets (db : Registry) (d : String) : GcResult :=
  let r := gcLoop d db
  { db := db.filter (fun a => !(r.2.2.contains a.id))
    storageIds := r.1
    blobIds := r.2.1 }

/-- The loop body of `deleteAllAssets`: push every truthy reference. -/
def deleteAllLoop : Registry → List String × List String
  | [] => ([], [])
  | a :: rest =>
    let r := deleteAllLoop rest
    (pushIfTruthy a.storageId r.1, pushIfTruthy a.blobId r.2)

/-- The `deleteAllAssets` internal mutation of `src/component/lib.ts`:
delete every row, returning all truthy references. -/
def deleteAllAssets (db : Registry) : GcResult :=
  let r := deleteAllLoop db
  { db := [], storageIds := r.1, blobIds := r.2 }

/-- The `listAssets` query: the first `limit ?? 100` rows in ascending
creation order. -/
def listAssets (db : Registry) (limit : Option Nat) : Registry :=
  db.take (limit.getD 100)

/-- One row of the `deploymentInfo` table. -/
structure DeploymentInfo where
  id : Nat
  creationTime : Nat
  currentDeploymentId : String
  deployedAt : Nat
  deriving Repr, DecidableEq

/-- The `getCurrentDeployment` query: `first()` on the table. -/
def getCurrentDeployment (db : List DeploymentInfo) : Option DeploymentInfo :=
  db.head?

/-- The `setCurrentDeployment` mutation of `src/component/lib.ts`: patch the
first existing row in place (keeping `_id` and `_creationTime`) with the new
`currentDeploymentId` and `deployedAt := Date.now()`, or insert a fresh row
when the table is empty. -/
def setCurrentDeployment (db : List DeploymentInfo) (d : String)
    (nextId now : Nat) : List DeploymentInfo :=
  match db with
  | [] => [{ id := nextId, creationTime := now, currentDeploymentId := d, deployedAt := now }]
  | x :: rest => { x with currentDeploymentId := d, deployedAt := now } :: rest

/-- A sequence of `setCurrentDeployment` calls (deployment id and timestamp
per call) run against an initially empty `deploymentInfo` table. -/
def runDeployments (calls : List (String × Nat)) : List DeploymentInfo :=
  calls.foldl (fun db c => setCurrentDeployment db c.1 db.length c.2) []

/-!
## Upload orchestrator, phase level (`src/cli/upload.ts`)

`uploadWithConcurrency` runs in sequential phases, each awaited before the
next begins: partition the file set, generate upload URLs and transfer the
block-storage group, transfer the CDN group, then register everything
(`recordAssets` in one batch for storage entries, `recordAsset` per CDN
entry).  `main` wraps it in try/catch — any failure calls `process.exit(1)` —
and only on success goes on to call `gcOldAssets` with the fresh
`deploymentId`.  The model linearizes the in-phase transfer concurrency
(file order) and draws transfer/registration outcomes from oracles.
-/

/-- A file collected from the dist directory: URL path and MIME type. -/
structure FileEntry where
  path : String
  contentType : String
  deriving Repr, DecidableEq

/-- The per-file HTML test of `uploadWithConcurrency`. -/
def isHtml (f : FileEntry) : Bool :=
  f.contentType.startsWith "text/html"

/-- The partition loop of `uploadWithConcurrency` (upload.ts lines 183-192):
a file goes to the CDN group iff CDN mode is on, the file is not HTML, and
the site URL is truthy; every other file goes to the storage group.
Returns `(cdnFiles, storageFiles)`, each in input order. -/
def partitionFiles (files : List FileEntry) (useCdn : Bool)
    (siteUrl : Option String) : List FileEntry × List FileEntry :=
  match files with
  | [] => ([], [])
  | f :: rest =>
    let r := partitionFiles rest useCdn siteUrl
    if useCdn && !(isHtml f) && truthy siteUrl then (f :: r.1, r.2)
    else (r.1, f :: r.2)

/-- One entry of the orchestrator's `allAssets` accumulator. -/
structure AssetRecord where
  path : String
  storageId : Option String
  blobId : Option String
  contentType : String
  deploymentId : String
  deriving Repr, DecidableEq

/-- Outcomes of the remote calls a deploy makes, per path: a storage upload
yields a `storageId` or fails, a CDN upload yields a `blobId` or fails, the
batched `recordAssets` call and each per-path `recordAsset` call succeed or
fail. -/
structure Oracles where
  sid : String → Option String
  bid : String → Option String
  recordBatchOk : Bool
  recordOneOk : String → Bool

/-- Observable remote calls of one deploy invocation. -/
inductive DeployEvent where
  | genUrls (count : Nat)
  | uploadStorage (path : String)
  | uploadCdn (path : String)
  | recordBatch (paths : List String)
  | recordOne (path : String)
  | gc (deploymentId : String)
  deriving Repr, DecidableEq

/-- The block-storage transfer phase, linearized in file order: each file
emits its upload event; a failed upload aborts the phase.  On success the
collected `storageIds` are returned in file order. -/
def runStorageUploads (o : Oracles) : List FileEntry → List DeployEvent × Option (List String)
  | [] => ([], some [])
  | f :: rest =>
    match o.sid f.path with
    | none => ([.uploadStorage f.path], none)
    | some s =>
      let r := runStorageUploads o rest
      (.uploadStorage f.path :: r.1, r.2.map (fun l => s :: l))

/-- The `allAssets.push` entries built for the storage group
(upload.ts lines 240-247): `path`, the collected `storageId`, `contentType`
and the deploy's `deploymentId`; no `blobId` field. -/
def buildStorageAssets (files : List FileEntry) (sids : List String)
    (d : String) : List AssetRecord :=
  List.zipWith
    (fun f s =>
      { path := f.path, storageId := some s, blobId := none
        contentType := f.contentType, deploymentId := d })
    files sids

/-- The CDN transfer phase, linearized in file order: each file emits its
upload event and on success pushes an `allAssets` entry carrying the returned
`blobId` and no `storageId`; a failed upload aborts the phase. -/
def runCdnUploads (o : Oracles) (d : String) :
    List FileEntry → List DeployEvent × Option (List AssetRecord)
  | [] => ([], some [])
  | f :: rest =>
    match o.bid f.path with
    | none => ([.uploadCdn f.path], none)
    | some b =>
      let r := runCdnUploads o d rest
      (.uploadCdn f.path :: r.1,
        r.2.map (fun l =>
          { path := f.path, storageId := none, blobId := some b
            contentType := f.contentType, deploymentId := d } :: l))

/-- The per-CDN-asset registration loop (upload.ts lines 303-310): one
awaited `recordAsset` call per asset, in order; a failed call aborts the
remaining ones. -/
def runCdnRecords (o : Oracles) : List AssetRecord → List DeployEvent × Bool
  | [] => ([], true)
  | a :: rest =>
    if o.recordOneOk a.path then
      let r := runCdnRecords o rest
      (.recordOne a.path :: r.1, r.2)
    else ([.recordOne a.path], false)

/-- Result of one `uploadWithConcurrency` call: the events it issued, the
`allAssets` accumulator it built, and whether it returned normally. -/
structure UwcResult where
  events : List DeployEvent
  assets : List AssetRecord
  ok : Bool
  deriving Repr, DecidableEq

/-- The registration block of `uploadWithConcurrency` (upload.ts lines
284-311): when `allAssets` is nonempty, split it into the entries with a
truthy `storageId` and those with a truthy `blobId`; flush the former in one
batched `recordAssets` call (when nonempty, and failing the whole block if
that call fails), then the latter through per-entry `recordAsset` calls. -/
def recordPhase (o : Oracles) (allAssets : List AssetRecord) :
    List DeployEvent × Bool :=
  if allAssets.isEmpty then ([], true)
  else
    let sAssets := allAssets.filter (fun a => truthy a.storageId)
    let cAssets := allAssets.filter (fun a => truthy a.blobId)
    let batchEvents :=
      if sAssets.isEmpty then []
      else [.recordBatch (sAssets.map (fun a => a.path))]
    if !sAssets.isEmpty && !o.recordBatchOk then (batchEvents, false)
    else
      let rc := runCdnRecords o cAssets
      (batchEvents ++ rc.1, rc.2)

/-- Phase-level model of `uploadWithConcurrency`: partition; if the storage
group is nonempty, one batched `generateUploadUrls` call then the storage
transfers; the CDN transfers (guarded by a nonempty CDN group and a truthy
site URL); then the registration block.  Any failure aborts the remaining
phases. -/
def uploadWithConcurrency (files : List FileEntry) (useCdn : Bool)
    (siteUrl : Option String) (d : String) (o : Oracles) : UwcResult :=
  let parts := partitionFiles files useCdn siteUrl
  let cdnFiles := parts.1
  let storageFiles := parts.2
  let su := runStorageUploads o storageFiles
  let storageEvents :=
    if storageFiles.isEmpty then [] else .genUrls storageFiles.length :: su.1
  match su.2 with
  | none => { events := storageEvents, assets := [], ok := false }
  | some sids =>
    let storageAssets := buildStorageAssets storageFiles sids d
    let cu :=
      if !cdnFiles.isEmpty && truthy siteUrl then runCdnUploads o d cdnFiles
      else ([], some [])
    match cu.2 with
    | none => { events := storageEvents ++ cu.1, assets := storageAssets, ok := false }
    | some cdnAssets =>
      let allAssets := storageAssets ++ cdnAssets
      let rp := recordPhase o allAssets
      { events := storageEvents ++ cu.1 ++ rp.1, assets := allAssets, ok := rp.2 }

/-- The deploy tail of `main` (upload.ts lines 446-466): run
`uploadWithConcurrency` inside try/catch — on any failure `process.exit(1)`
fires before anything else — and only on success issue the
`gcOldAssets(deploymentId)` call. -/
def mainRun (files : List FileEntry) (useCdn : Bool) (siteUrl : Option String)
    (d : String) (o : Oracles) : List DeployEvent :=
  let r := uploadWithConcurrency files useCdn siteUrl d o
  if r.ok then r.events ++ [.gc d] else r.events

/-!
## Upload orchestrator, worker-pool level (`src/cli/upload.ts`)

Fine-grained model of the transfer loop shared by the storage and CDN groups
(upload.ts lines 217-238 and 253-281): each iteration starts one task and
appends it to `pending`; once `pending.size >= concurrency` the loop awaits
`Promise.race(pending)`.  A task that fulfills removes itself from `pending`
(the `.then` handler); a task that rejects stays in `pending`, so the race
rejects and the exception propagates out of the loop at once — the trailing
`await Promise.all(pending)` is skipped and the still-running transfers are
left unawaited.  On the fall-through path, `Promise.all` likewise rejects at
the first rejected task.  `outcomes` fixes each task's fate and `sched`
resolves the nondeterministic settling order (at each await point it names
the pending task that settles next, defaulting to the oldest). -/

/-- Observable events of the pool: a task is started, or settles. -/
inductive PoolEvent where
  | start (i : Nat)
  | settle (i : Nat) (ok : Bool)
  deriving Repr, DecidableEq

/-- Whether an event is a failed settling. -/
def isSettleFail : PoolEvent → Bool
  | .settle _ false => true
  | _ => false

/-- Result of one pool run: events in order, whether an error propagated,
and the tasks still in flight (started, unsettled) at the moment the
function returned to its caller. -/
structure PoolResult where
  events : List PoolEvent
  error : Bool
  unsettled : List Nat
  deriving Repr, DecidableEq

/-- Pick the next pending task to settle: the head of the schedule when it is
pending, else the oldest pending task. -/
def pickPending (sched pending : List Nat) : Nat × List Nat :=
  match sched with
  | [] => (pending.headD 0, [])
  | s :: rest => (if pending.contains s then s else pending.headD 0, rest)

/-- The trailing `await Promise.all(pending)`: settle pending tasks one by
one (order chosen by the schedule); the first rejection makes `Promise.all`
reject immediately, leaving the remaining tasks unsettled.  `fuel` is the
number of pending tasks at entry. -/
def poolDrain (outcomes : Nat → Bool) :
    Nat → List Nat → List Nat → PoolResult
  | 0, pending, _ => { events := [], error := false, unsettled := pending }
  | _ + 1, [], _ => { events := [], error := false, unsettled := [] }
  | fuel + 1, p :: ps, sched =>
    let pick := pickPending sched (p :: ps)
    let j := pick.1
    if outcomes j then
      let r := poolDrain outcomes fuel ((p :: ps).erase j) pick.2
      { r with events := .settle j true :: r.events }
    else
      { events := [.settle j false], error := true
        unsettled := (p :: ps).erase j }

/-- The main pool loop: start the next task, and once the pending set has
reached the concurrency bound await the race — a successful settling removes
that task and the loop continues, a failed settling propagates the error
immediately with the other in-flight tasks unsettled. -/
def poolLoop (outcomes : Nat → Bool) (conc : Nat) :
    List Nat → List Nat → List Nat → PoolResult
  | [], pending, sched => poolDrain outcomes pending.length pending sched
  | i :: rest, pending, sched =>
    let pending1 := pending ++ [i]
    if conc ≤ pending1.length then
      let pick := pickPending sched pending1
      let j := pick.1
      if outcomes j then
        let r := poolLoop outcomes conc rest (pending1.erase j) pick.2
        { r with events := .start i :: .settle j true :: r.events }
      else
        { events := [.start i, .settle j false], error := true
          unsettled := pending1.erase j }
    else
      let r := poolLoop outcomes conc rest pending1 sched
      { r with events := .start i :: r.events }

/-- One whole transfer phase over tasks `0..n-1` with the given concurrency
bound, task outcomes and settling schedule. -/
def poolRun (outcomes : Nat → Bool) (conc n : Nat) (sched : List Nat) : PoolResult :=
  poolLoop outcomes conc (List.range n) [] sched

/-!
## Lemmas about the garbage-collection sweep
-/

theorem pushIfTruthy_eq (o : Option String) (l : List String) :
    pushIfTruthy o l = (storedOpt o).toList ++ l := by
  cases o with
  | none => rfl
  | some s =>
    by_cases h : s = "" <;>
      simp [pushIfTruthy, storedOpt, truthy, h]

theorem gcLoop_storageIds (d : String) (db : Registry) :
    (gcLoop d db).1
      = (db.filter (fun a => a.deploymentId != d)).filterMap
          (fun a => storedOpt a.storageId) := by
  induction db with
  | nil => rfl
  | cons a rest ih =>
    by_cases h : a.deploymentId = d
    · simp [gcLoop, h, ih]
    · simp only [gcLoop, h, ih, pushIfTruthy_eq, List.filter_cons,
        bne_iff_ne, ne_eq, not_false_eq_true, if_true,
        List.filterMap_cons]
      cases storedOpt a.storageId <;> simp

theorem gcLoop_blobIds (d : String) (db : Registry) :
    (gcLoop d db).2.1
      = (db.filter (fun a => a.deploymentId != d)).filterMap
          (fun a => storedOpt a.blobId) := by
  induction db with
  | nil => rfl
  | cons a rest ih =>
    by_cases h : a.deploymentId = d
    · simp [gcLoop, h, ih]
    · simp only [gcLoop, h, ih, pushIfTruthy_eq, List.filter_cons,
        bne_iff_ne, ne_eq, not_false_eq_true, if_true,
        List.filterMap_cons]
      cases storedOpt a.blobId <;> simp

theorem gcLoop_ids (d : String) (db : Registry) :
    (gcLoop d db).2.2
      = (db.filter (fun a => a.deploymentId != d)).map (fun a => a.id) := by
  induction db with
  | nil => rfl
  | cons a rest ih =>
    by_cases h : a.deploymentId = d <;> simp [gcLoop, h, ih]

/-- Every row that survives the sweep belongs to the current deployment:
a stale row always contributes its own id to the deletion set. -/
theorem gcOldAssets_mem_db (db : Registry) (d : String) :
    ∀ a ∈ (gcOldAssets db d).db, a.deploymentId = d := by
  intro a ha
  simp only [gcOldAssets, List.mem_filter] at ha
  obtain ⟨hmem, hkeep⟩ := ha
  by_contra h
  rw [gcLoop_ids] at hkeep
  simp only [List.elem_eq_mem, Bool.not_eq_eq_eq_not, Bool.not_true,
    decide_eq_false_iff_not, List.mem_map, not_exists, not_and] at hkeep
  exact hkeep a (List.mem_filter.mpr ⟨hmem, by simp [h]⟩) rfl

/-- A table whose every row is current is untouched by the sweep loop. -/
theorem gcLoop_of_current (d : String) (db : Registry)
    (h : ∀ a ∈ db, a.deploymentId = d) : gcLoop d db = ([], [], []) := by
  induction db with
  | nil => rfl
  | cons a rest ih =>
    have ha := h a (by simp)
    simp [gcLoop, ha, ih (fun b hb => h b (by simp [hb]))]

/-- C2: for every registry state and deployment id `d`, `gcOldAssets d`
deletes exactly the rows whose `deploymentId` differs from `d`, leaves the
rows whose `deploymentId` equals `d` unchanged (same rows, same order), and
returns the deleted rows' present `storageId` values in `storageIds` and
their present `blobId` values in `blobIds`. -/
theorem gcOldAssets_spec (db : Registry) (d : String)
    (hids : (db.map (fun a => a.id)).Nodup) :
    (gcOldAssets db d).db = db.filter (fun a => a.deploymentId == d)
    ∧ (gcOldAssets db d).storageIds
        = (db.filter (fun a => a.deploymentId != d)).filterMap
            (fun a => storedOpt a.storageId)
    ∧ (gcOldAssets db d).blobIds
        = (db.filter (fun a => a.deploymentId != d)).filterMap
            (fun a => storedOpt a.blobId) := by
  refine ⟨?_, gcLoop_storageIds d db, gcLoop_blobIds d db⟩
  show db.filter _ = _
  apply List.filter_congr
  intro a ha
  rw [gcLoop_ids]
  by_cases h : a.deploymentId = d
  · have hnot : a.id ∉ (db.filter (fun a => a.deploymentId != d)).map (fun a => a.id) := by
      intro hcon
      obtain ⟨b, hb, hba⟩ := List.mem_map.mp hcon
      obtain ⟨hbmem, hbstale⟩ := List.mem_filter.mp hb
      have hba2 : b = a := List.inj_on_of_nodup_map hids hbmem ha hba
      subst hba2
      simp [h] at hbstale
    simp [hnot, h]
  · have hmem : a.id ∈ (db.filter (fun a => a.deploymentId != d)).map (fun a => a.id) :=
      List.mem_map.mpr ⟨a, List.mem_filter.mpr ⟨ha, by simp [h]⟩, rfl⟩
    simp [hmem, h]

/-- Witness for C2 on a two-row registry with one stale row. -/
theorem gcOldAssets_spec_witness :
    (([⟨1, "/a", some "s1", none, "text/html", "old"⟩,
       ⟨2, "/b", none, some "b2", "text/css", "new"⟩] : Registry).map
        (fun a => a.id)).Nodup
    ∧ ((gcOldAssets [⟨1, "/a", some "s1", none, "text/html", "old"⟩,
          ⟨2, "/b", none, some "b2", "text/css", "new"⟩] "new").db
        = ([⟨1, "/a", some "s1", none, "text/html", "old"⟩,
            ⟨2, "/b", none, some "b2", "text/css", "new"⟩] : Registry).filter
            (fun a => a.deploymentId == "new")
      ∧ (gcOldAssets [⟨1, "/a", some "s1", none, "text/html", "old"⟩,
            ⟨2, "/b", none, some "b2", "text/css", "new"⟩] "new").storageIds
          = (([⟨1, "/a", some "s1", none, "text/html", "old"⟩,
              ⟨2, "/b", none, some "b2", "text/css", "new"⟩] : Registry).filter
              (fun a => a.deploymentId != "new")).filterMap
              (fun a => storedOpt a.storageId)
      ∧ (gcOldAssets [⟨1, "/a", some "s1", none, "text/html", "old"⟩,
            ⟨2, "/b", none, some "b2", "text/css", "new"⟩] "new").blobIds
          = (([⟨1, "/a", some "s1", none, "text/html", "old"⟩,
              ⟨2, "/b", none, some "b2", "text/css", "new"⟩] : Registry).filter
              (fun a => a.deploymentId != "new")).filterMap
              (fun a => storedOpt a.blobId)) :=
  ⟨by decide,
   gcOldAssets_spec
     [⟨1, "/a", some "s1", none, "text/html", "old"⟩,
      ⟨2, "/b", none, some "b2", "text/css", "new"⟩] "new" (by decide)⟩

/-- Sweeping a table whose rows are all current returns it unchanged with
empty release sets. -/
theorem gcOldAssets_of_current (db : Registry) (d : String)
    (h : ∀ a ∈ db, a.deploymentId = d) :
    gcOldAssets db d = { db := db, storageIds := [], blobIds := [] } := by
  have hloop := gcLoop_of_current d db h
  simp [gcOldAssets, hloop]

/-- C8: sweeping twice in a row with the same deployment id and no
intervening mutation releases nothing further: the second call returns empty
`storageIds` and `blobIds` and leaves the table exactly as it was. -/
theorem gcOldAssets_idempotent (db : Registry) (d : String) :
    (gcOldAssets (gcOldAssets db d).db d).db = (gcOldAssets db d).db
    ∧ (gcOldAssets (gcOldAssets db d).db d).storageIds = []
    ∧ (gcOldAssets (gcOldAssets db d).db d).blobIds = [] := by
  rw [gcOldAssets_of_current (gcOldAssets db d).db d (gcOldAssets_mem_db db d)]
  exact ⟨rfl, rfl, rfl⟩

/-!
## The storage-reference shape of rows written by `recordAsset`
-/

/-- The exactly-one-backend-reference property claimed for `staticAssets`
rows: a `storageId` and no `blobId`, or a `blobId` and no `storageId`. -/
def exactlyOneRef (a : StaticAsset) : Prop :=
  (a.storageId ≠ none ∧ a.blobId = none) ∨ (a.storageId = none ∧ a.blobId ≠ none)

/-- C6 counterexample: `recordAsset` accepts a call carrying both a
`storageId` and a `blobId` and writes a row with both fields populated, so
the exactly-one invariant does not hold of every accepted argument
combination. -/
theorem recordAsset_both_refs_counterexample :
    recordAsset [] 0
        { path := "/a", storageId := some "s1", blobId := some "b1"
          contentType := "text/plain", deploymentId := "d1" }
      = .ok ([{ id := 0, path := "/a", storageId := some "s1"
                blobId := some "b1", contentType := "text/plain"
                deploymentId := "d1" }], none, none)
    ∧ ¬ exactlyOneRef
        { id := 0, path := "/a", storageId := some "s1", blobId := some "b1"
          contentType := "text/plain", deploymentId := "d1" } := by
  constructor
  · rfl
  · simp [exactlyOneRef]

/-- C6 amended: every row written by `recordAsset` carries the `storageId`
argument exactly when that argument is truthy and the `blobId` argument
exactly when that argument is truthy — the mutation enforces no
exactly-one-reference rule, so rows with both or with neither reference are
accepted. -/
theorem recordAsset_refs_match_args (db : Registry) (n : Nat)
    (args : RecordArgs) (db' : Registry) (o1 o2 : Option String)
    (h : recordAsset db n args = .ok (db', o1, o2)) :
    ∃ pre, db' = pre ++
      [{ id := n, path := args.path, storageId := storedOpt args.storageId
         blobId := storedOpt args.blobId, contentType := args.contentType
         deploymentId := args.deploymentId }] := by
  unfold recordAsset at h
  cases hu : uniqueByPath db args.path with
  | error e => rw [hu] at h; exact absurd h (by simp [Bind.bind, Except.bind])
  | ok existing =>
    rw [hu] at h
    simp only [Bind.bind, Except.bind, pure, Except.pure, Except.ok.injEq,
      Prod.mk.injEq] at h
    cases existing with
    | none => exact ⟨db, h.1.symm⟩
    | some a => exact ⟨db.filter (fun r => r.id != a.id), h.1.symm⟩

/-- Witness for the amended C6 at a concrete both-references call. -/
theorem recordAsset_refs_match_args_witness :
    recordAsset [] 7
        { path := "/w", storageId := some "sw", blobId := some "bw"
          contentType := "text/css", deploymentId := "dw" }
      = .ok ([{ id := 7, path := "/w", storageId := some "sw"
                blobId := some "bw", contentType := "text/css"
                deploymentId := "dw" }], none, none)
    ∧ ∃ pre, ([{ id := 7, path := "/w", storageId := some "sw"
                 blobId := some "bw", contentType := "text/css"
                 deploymentId := "dw" }] : Registry) = pre ++
        [{ id := 7, path := "/w"
           storageId := storedOpt (some "sw"), blobId := storedOpt (some "bw")
           contentType := "text/css", deploymentId := "dw" }] :=
  ⟨rfl, recordAsset_refs_match_args [] 7
    { path := "/w", storageId := some "sw", blobId := some "bw"
      contentType := "text/css", deploymentId := "dw" }
    _ none none rfl⟩

/-!
## The deployment pointer is a patched-in-place singleton
-/

/-- Folding further `setCurrentDeployment` calls over a singleton table
patches that one record in place: `_id` and `_creationTime` never change,
the payload fields always show the latest call. -/
theorem foldl_setCurrentDeployment_singleton (calls : List (String × Nat))
    (x : DeploymentInfo) :
    calls.foldl (fun db c => setCurrentDeployment db c.1 db.length c.2) [x]
      = [{ x with
           currentDeploymentId :=
             (calls.getLastD (x.currentDeploymentId, x.deployedAt)).1
           deployedAt :=
             (calls.getLastD (x.currentDeploymentId, x.deployedAt)).2 }] := by
  induction calls generalizing x with
  | nil => simp
  | cons c cs ih =>
    rw [List.foldl_cons]
    show cs.foldl _ [{ x with currentDeploymentId := c.1, deployedAt := c.2 }] = _
    rw [ih, List.getLastD_cons]

/-- C10: the `deploymentInfo` record is created by the first
`setCurrentDeployment` call and only patched in place by every later call —
the table stays a singleton whose `_id` and `_creationTime` come from the
first call and whose `currentDeploymentId`/`deployedAt` come from the last
call — and `getCurrentDeployment` returns that single record, or `null`
before the first deploy. -/
theorem deploymentInfo_singleton (calls : List (String × Nat)) (c : String × Nat) :
    getCurrentDeployment (runDeployments []) = none
    ∧ runDeployments (c :: calls)
        = [{ id := 0, creationTime := c.2
             currentDeploymentId := (calls.getLastD c).1
             deployedAt := (calls.getLastD c).2 }]
    ∧ getCurrentDeployment (runDeployments (c :: calls))
        = some { id := 0, creationTime := c.2
                 currentDeploymentId := (calls.getLastD c).1
                 deployedAt := (calls.getLastD c).2 } := by
  have hstep : runDeployments (c :: calls)
      = calls.foldl (fun db c => setCurrentDeployment db c.1 db.length c.2)
          [({ id := 0, creationTime := c.2, currentDeploymentId := c.1
              deployedAt := c.2 } : DeploymentInfo)] := rfl
  have hrun : runDeployments (c :: calls)
      = [{ id := 0, creationTime := c.2
           currentDeploymentId := (calls.getLastD c).1
           deployedAt := (calls.getLastD c).2 }] := by
    rw [hstep, foldl_setCurrentDeployment_singleton]
  exact ⟨rfl, hrun, by rw [hrun]; rfl⟩

/-!
## Replace semantics of `recordAsset` and the unique-path invariant
-/

theorem storedOpt_eq_self (o : Option String) (h : o ≠ some "") :
    storedOpt o = o := by
  cases o with
  | none => rfl
  | some s =>
    have hs : s ≠ "" := fun he => h (by rw [he])
    simp [storedOpt, truthy, hs]

theorem pathRows_append (l1 l2 : Registry) (p : String) :
    pathRows (l1 ++ l2) p = pathRows l1 p ++ pathRows l2 p :=
  List.filter_append l1 l2

theorem pathRows_filter (db : Registry) (g : StaticAsset → Bool) (p : String) :
    pathRows (db.filter g) p = (pathRows db p).filter g :=
  List.filter_comm _ _ _

/-- Anatomy of one successful `recordAsset` call on a table holding at most
one row at the target path: the call succeeds, afterwards the target path
holds exactly the new row, the returned old ids are the previous row's
fields (or `null` when the path was empty), and no other path gains rows. -/
theorem recordAsset_single (db : Registry) (n : Nat) (a : RecordArgs)
    (hone : (pathRows db a.path).length ≤ 1) :
    ∃ db1 o1 o2,
      recordAsset db n a = .ok (db1, o1, o2)
      ∧ pathRows db1 a.path
          = [{ id := n, path := a.path, storageId := storedOpt a.storageId
               blobId := storedOpt a.blobId, contentType := a.contentType
               deploymentId := a.deploymentId }]
      ∧ (pathRows db a.path = [] → o1 = none ∧ o2 = none)
      ∧ (∀ e, pathRows db a.path = [e] → o1 = e.storageId ∧ o2 = e.blobId)
      ∧ (∀ q, q ≠ a.path → (pathRows db1 q).length ≤ (pathRows db q).length) := by
  have hself : (a.path == a.path) = true := beq_self_eq_true a.path
  have hnewSelf : pathRows
      [{ id := n, path := a.path, storageId := storedOpt a.storageId
         blobId := storedOpt a.blobId, contentType := a.contentType
         deploymentId := a.deploymentId }] a.path
      = [{ id := n, path := a.path, storageId := storedOpt a.storageId
           blobId := storedOpt a.blobId, contentType := a.contentType
           deploymentId := a.deploymentId }] := by
    simp [pathRows]
  have hnewOther : ∀ q, q ≠ a.path → pathRows
      [{ id := n, path := a.path, storageId := storedOpt a.storageId
         blobId := storedOpt a.blobId, contentType := a.contentType
         deploymentId := a.deploymentId }] q = [] := by
    intro q hq
    have hne : (a.path == q) = false := beq_eq_false_iff_ne.mpr (fun h => hq h.symm)
    simp [pathRows, hne]
  cases hE : pathRows db a.path with
  | nil =>
    have hu : uniqueByPath db a.path = .ok none := by
      unfold uniqueByPath; rw [hE]
    have hr : recordAsset db n a = .ok (db ++
        [{ id := n, path := a.path, storageId := storedOpt a.storageId
           blobId := storedOpt a.blobId, contentType := a.contentType
           deploymentId := a.deploymentId }], none, none) := by
      unfold recordAsset; rw [hu]; rfl
    refine ⟨_, none, none, hr, ?_, fun _ => ⟨rfl, rfl⟩, ?_, ?_⟩
    · rw [pathRows_append, hE, hnewSelf, List.nil_append]
    · intro e he; simp at he
    · intro q hq
      rw [pathRows_append, hnewOther q hq, List.append_nil]
  | cons e rest =>
    cases rest with
    | cons e2 rest2 => simp [hE] at hone
    | nil =>
      have hu : uniqueByPath db a.path = .ok (some e) := by
        unfold uniqueByPath; rw [hE]
      have hr : recordAsset db n a = .ok (db.filter (fun r => r.id != e.id) ++
          [{ id := n, path := a.path, storageId := storedOpt a.storageId
             blobId := storedOpt a.blobId, contentType := a.contentType
             deploymentId := a.deploymentId }], e.storageId, e.blobId) := by
        unfold recordAsset; rw [hu]; rfl
      refine ⟨_, e.storageId, e.blobId, hr, ?_, ?_, ?_, ?_⟩
      · rw [pathRows_append, pathRows_filter, hE, hnewSelf]
        have heid : (e.id != e.id) = false := by simp
        simp [heid]
      · intro he; simp at he
      · intro e' he'
        have he2 : e = e' := by simpa using he'
        subst he2; exact ⟨rfl, rfl⟩
      · intro q hq
        rw [pathRows_append, pathRows_filter, hnewOther q hq, List.append_nil]
        exact List.length_filter_le _ _

/-- A successful `getByPath` answer of `null` means the path has no rows. -/
theorem getByPath_none_iff_empty (db : Registry) (p : String)
    (h : getByPath db p = .ok none) : pathRows db p = [] := by
  unfold getByPath uniqueByPath at h
  cases hE : pathRows db p with
  | nil => rfl
  | cons e rest =>
    rw [hE] at h
    cases rest with
    | nil => cases h
    | cons e2 rest2 => cases h

/-- C3: replacing an asset at a path returns the previous call's references
as the old ones, and `getByPath` afterwards sees only the new row; a call on
a path with no existing asset returns `null` for both old references.
Reference arguments are genuine (never the degenerate empty string, which
JavaScript truthiness would drop). -/
theorem recordAsset_replace (db : Registry) (n1 n2 : Nat) (a1 a2 : RecordArgs)
    (hp : a2.path = a1.path)
    (hone : (pathRows db a1.path).length ≤ 1)
    (h1s : a1.storageId ≠ some "") (h1b : a1.blobId ≠ some "")
    (h2s : a2.storageId ≠ some "") (h2b : a2.blobId ≠ some "") :
    ∃ db1 o1 o2 db2,
      recordAsset db n1 a1 = .ok (db1, o1, o2)
      ∧ recordAsset db1 n2 a2 = .ok (db2, a1.storageId, a1.blobId)
      ∧ getByPath db2 a1.path
          = .ok (some { id := n2, path := a1.path, storageId := a2.storageId
                        blobId := a2.blobId, contentType := a2.contentType
                        deploymentId := a2.deploymentId })
      ∧ (getByPath db a1.path = .ok none → o1 = none ∧ o2 = none) := by
  obtain ⟨db1, o1, o2, hr1, hrows1, hfresh1, _, _⟩ :=
    recordAsset_single db n1 a1 hone
  have hone2 : (pathRows db1 a2.path).length ≤ 1 := by
    rw [hp, hrows1]; exact le_refl 1
  obtain ⟨db2, o1', o2', hr2, hrows2, _, hrepl2, _⟩ :=
    recordAsset_single db1 n2 a2 hone2
  have hold : o1' = storedOpt a1.storageId ∧ o2' = storedOpt a1.blobId := by
    have := hrepl2 _ (by rw [hp, hrows1])
    exact this
  refine ⟨db1, o1, o2, db2, hr1, ?_, ?_, ?_⟩
  · rw [hr2, hold.1, hold.2, storedOpt_eq_self a1.storageId h1s,
      storedOpt_eq_self a1.blobId h1b]
  · have hget : pathRows db2 a1.path
        = [{ id := n2, path := a2.path, storageId := storedOpt a2.storageId
             blobId := storedOpt a2.blobId, contentType := a2.contentType
             deploymentId := a2.deploymentId }] := by
      rw [← hp]; exact hrows2
    unfold getByPath uniqueByPath
    rw [hget, hp, storedOpt_eq_self a2.storageId h2s,
      storedOpt_eq_self a2.blobId h2b]
  · intro hg
    exact hfresh1 (getByPath_none_iff_empty db a1.path hg)

/-- Witness for C3: a fresh path receives reference `r1`, the second call
returns `r1` as the old reference, and lookup then sees only `r2`. -/
theorem recordAsset_replace_witness :
    (pathRows [] "/x").length ≤ 1
    ∧ ∃ db1 o1 o2 db2,
        recordAsset [] 0
            { path := "/x", storageId := some "r1", blobId := none
              contentType := "text/css", deploymentId := "d1" }
          = .ok (db1, o1, o2)
        ∧ recordAsset db1 1
            { path := "/x", storageId := some "r2", blobId := none
              contentType := "text/css", deploymentId := "d2" }
          = .ok (db2, some "r1", none)
        ∧ getByPath db2 "/x"
            = .ok (some { id := 1, path := "/x", storageId := some "r2"
                          blobId := none, contentType := "text/css"
                          deploymentId := "d2" })
        ∧ (getByPath [] "/x" = .ok none → o1 = none ∧ o2 = none) :=
  ⟨by decide,
   recordAsset_replace [] 0 1
     { path := "/x", storageId := some "r1", blobId := none
       contentType := "text/css", deploymentId := "d1" }
     { path := "/x", storageId := some "r2", blobId := none
       contentType := "text/css", deploymentId := "d2" }
     rfl (by decide) (by decide) (by decide) (by decide) (by decide)⟩

/-- At most one live row per path — the unique-index invariant of the
`staticAssets` table. -/
def atMostOnePerPath (db : Registry) : Prop :=
  ∀ p, (pathRows db p).length ≤ 1

/-- C7: on a table with at most one row per path, `getByPath` never fails
(it returns the single live row or `null`), `recordAsset` always succeeds
and preserves the invariant, and the sweeping operations preserve it too. -/
theorem registry_unique_path_invariant (db : Registry) (h : atMostOnePerPath db) :
    (∀ p, getByPath db p = .ok ((pathRows db p).head?))
    ∧ (∀ n args, ∃ db1 o1 o2,
        recordAsset db n args = .ok (db1, o1, o2) ∧ atMostOnePerPath db1)
    ∧ (∀ d, atMostOnePerPath (gcOldAssets db d).db)
    ∧ atMostOnePerPath (deleteAllAssets db).db := by
  refine ⟨?_, ?_, ?_, ?_⟩
  · intro p
    unfold getByPath uniqueByPath
    cases hE : pathRows db p with
    | nil => rfl
    | cons e rest =>
      cases rest with
      | nil => rfl
      | cons e2 rest2 =>
        have := h p
        rw [hE] at this
        simp at this
  · intro n args
    obtain ⟨db1, o1, o2, hr, hrows, _, _, hother⟩ :=
      recordAsset_single db n args (h args.path)
    refine ⟨db1, o1, o2, hr, ?_⟩
    intro q
    by_cases hq : q = args.path
    · rw [hq, hrows]; exact le_refl 1
    · exact le_trans (hother q hq) (h q)
  · intro d q
    have hdb : (gcOldAssets db d).db
        = db.filter (fun a => !((gcLoop d db).2.2.contains a.id)) := rfl
    rw [hdb, pathRows_filter]
    exact le_trans (List.length_filter_le _ _) (h q)
  · intro q
    have hdb : (deleteAllAssets db).db = [] := rfl
    rw [hdb]
    simp [pathRows]

/-- Witness for C7 on a singleton table. -/
theorem registry_unique_path_invariant_witness :
    atMostOnePerPath [⟨3, "/i", some "s", none, "text/html", "d"⟩]
    ∧ ((∀ p, getByPath [⟨3, "/i", some "s", none, "text/html", "d"⟩] p
          = .ok ((pathRows [⟨3, "/i", some "s", none, "text/html", "d"⟩] p).head?))
      ∧ (∀ n args, ∃ db1 o1 o2,
          recordAsset [⟨3, "/i", some "s", none, "text/html", "d"⟩] n args
            = .ok (db1, o1, o2) ∧ atMostOnePerPath db1)
      ∧ (∀ d, atMostOnePerPath
          (gcOldAssets [⟨3, "/i", some "s", none, "text/html", "d"⟩] d).db)
      ∧ atMostOnePerPath
          (deleteAllAssets [⟨3, "/i", some "s", none, "text/html", "d"⟩]).db) :=
  have hone : atMostOnePerPath [⟨3, "/i", some "s", none, "text/html", "d"⟩] :=
    fun p => le_trans (List.length_filter_le _ _) (by simp)
  ⟨hone, registry_unique_path_invariant _ hone⟩

/-!
## CDN / block-storage routing of the file set
-/

theorem partitionFiles_true (files : List FileEntry) (su : Option String)
    (h : truthy su = true) :
    partitionFiles files true su
      = (files.filter (fun f => !(isHtml f)), files.filter (fun f => isHtml f)) := by
  induction files with
  | nil => rfl
  | cons f rest ih =>
    cases hh : isHtml f <;> simp [partitionFiles, ih, h, hh, List.filter_cons]

theorem partitionFiles_false (files : List FileEntry) (su : Option String) :
    partitionFiles files false su = ([], files) := by
  induction files with
  | nil => rfl
  | cons f rest ih => simp [partitionFiles, ih]

theorem runStorageUploads_total (o : Oracles) (sidf : String → String)
    (hsid : ∀ p, o.sid p = some (sidf p)) (files : List FileEntry) :
    runStorageUploads o files
      = (files.map (fun f => DeployEvent.uploadStorage f.path),
         some (files.map (fun f => sidf f.path))) := by
  induction files with
  | nil => rfl
  | cons f rest ih => simp [runStorageUploads, hsid f.path, ih]

theorem runCdnUploads_total (o : Oracles) (d : String) (bidf : String → String)
    (hbid : ∀ p, o.bid p = some (bidf p)) (files : List FileEntry) :
    runCdnUploads o d files
      = (files.map (fun f => DeployEvent.uploadCdn f.path),
         some (files.map (fun f =>
           ({ path := f.path, storageId := none, blobId := some (bidf f.path)
              contentType := f.contentType, deploymentId := d } : AssetRecord)))) := by
  induction files with
  | nil => rfl
  | cons f rest ih => simp [runCdnUploads, hbid f.path, ih]

theorem buildStorageAssets_map (files : List FileEntry) (g : FileEntry → String)
    (d : String) :
    buildStorageAssets files (files.map g) d
      = files.map (fun f =>
          ({ path := f.path, storageId := some (g f), blobId := none
             contentType := f.contentType, deploymentId := d } : AssetRecord)) := by
  induction files with
  | nil => rfl
  | cons f rest ih =>
    unfold buildStorageAssets at ih ⊢
    simp only [List.map_cons, List.zipWith_cons_cons]
    rw [ih]

/-- The CDN phase guard of `uploadWithConcurrency` is the identity once the
site URL is truthy: an empty CDN group uploads nothing either way. -/
theorem cdnPhase_guard (o : Oracles) (d : String) (l : List FileEntry) :
    (if !l.isEmpty then runCdnUploads o d l else ([], some []))
      = runCdnUploads o d l := by
  cases l <;> simp [runCdnUploads]

/-- C9: with CDN mode on (and a truthy site URL, which `main` guarantees),
exactly the non-HTML files route to the edge blob backend and each registers
with a `blobId` and no `storageId`, while the HTML files route to block
storage and each registers with a `storageId` and no `blobId`; with CDN mode
off, every file routes to block storage. -/
theorem cdn_routing (files : List FileEntry) (u d : String) (o : Oracles)
    (sidf bidf : String → String) (hu : u ≠ "")
    (hsid : ∀ p, o.sid p = some (sidf p))
    (hbid : ∀ p, o.bid p = some (bidf p)) :
    (partitionFiles files true (some u)).1 = files.filter (fun f => !(isHtml f))
    ∧ (partitionFiles files true (some u)).2 = files.filter (fun f => isHtml f)
    ∧ (∀ su : Option String, partitionFiles files false su = ([], files))
    ∧ (uploadWithConcurrency files true (some u) d o).assets
        = (files.filter (fun f => isHtml f)).map
            (fun f => { path := f.path, storageId := some (sidf f.path)
                        blobId := none, contentType := f.contentType
                        deploymentId := d })
          ++ (files.filter (fun f => !(isHtml f))).map
            (fun f => { path := f.path, storageId := none
                        blobId := some (bidf f.path), contentType := f.contentType
                        deploymentId := d }) := by
  have htr : truthy (some u) = true := by simp [truthy, hu]
  have hpart := partitionFiles_true files (some u) htr
  refine ⟨by rw [hpart], by rw [hpart], fun su => partitionFiles_false files su, ?_⟩
  unfold uploadWithConcurrency
  rw [hpart]
  simp only [htr, Bool.and_true]
  rw [cdnPhase_guard o d (files.filter (fun f => !(isHtml f)))]
  rw [runStorageUploads_total o sidf hsid,
    runCdnUploads_total o d bidf hbid (files.filter (fun f => !(isHtml f)))]
  simp [buildStorageAssets_map]

/-- Witness for C9 on a two-file set (one HTML shell, one hashed script). -/
theorem cdn_routing_witness :
    ("https://x.convex.site" : String) ≠ ""
    ∧ (∀ p, (⟨fun p => some ("sid-" ++ p), fun p => some ("bid-" ++ p), true,
          fun _ => true⟩ : Oracles).sid p = some ("sid-" ++ p))
    ∧ (∀ p, (⟨fun p => some ("sid-" ++ p), fun p => some ("bid-" ++ p), true,
          fun _ => true⟩ : Oracles).bid p = some ("bid-" ++ p))
    ∧ ((partitionFiles
          [⟨"/index.html", "text/html; charset=utf-8"⟩,
           ⟨"/app.js", "application/javascript"⟩] true
          (some "https://x.convex.site")).1
        = ([⟨"/index.html", "text/html; charset=utf-8"⟩,
            ⟨"/app.js", "application/javascript"⟩] : List FileEntry).filter
            (fun f => !(isHtml f))
      ∧ (partitionFiles
          [⟨"/index.html", "text/html; charset=utf-8"⟩,
           ⟨"/app.js", "application/javascript"⟩] true
          (some "https://x.convex.site")).2
        = ([⟨"/index.html", "text/html; charset=utf-8"⟩,
            ⟨"/app.js", "application/javascript"⟩] : List FileEntry).filter
            (fun f => isHtml f)
      ∧ (∀ su : Option String, partitionFiles
          [⟨"/index.html", "text/html; charset=utf-8"⟩,
           ⟨"/app.js", "application/javascript"⟩] false su
          = ([], [⟨"/index.html", "text/html; charset=utf-8"⟩,
                  ⟨"/app.js", "application/javascript"⟩]))
      ∧ (uploadWithConcurrency
          [⟨"/index.html", "text/html; charset=utf-8"⟩,
           ⟨"/app.js", "application/javascript"⟩] true
          (some "https://x.convex.site") "d1"
          ⟨fun p => some ("sid-" ++ p), fun p => some ("bid-" ++ p), true,
           fun _ => true⟩).assets
        = (([⟨"/index.html", "text/html; charset=utf-8"⟩,
             ⟨"/app.js", "application/javascript"⟩] : List FileEntry).filter
             (fun f => isHtml f)).map
            (fun f => { path := f.path, storageId := some ("sid-" ++ f.path)
                        blobId := none, contentType := f.contentType
                        deploymentId := "d1" })
          ++ (([⟨"/index.html", "text/html; charset=utf-8"⟩,
               ⟨"/app.js", "application/javascript"⟩] : List FileEntry).filter
               (fun f => !(isHtml f))).map
            (fun f => { path := f.path, storageId := none
                        blobId := some ("bid-" ++ f.path)
                        contentType := f.contentType, deploymentId := "d1" })) :=
  ⟨by decide, fun p => rfl, fun p => rfl,
   cdn_routing
     [⟨"/index.html", "text/html; charset=utf-8"⟩,
      ⟨"/app.js", "application/javascript"⟩]
     "https://x.convex.site" "d1"
     ⟨fun p => some ("sid-" ++ p), fun p => some ("bid-" ++ p), true,
      fun _ => true⟩
     (fun p => "sid-" ++ p) (fun p => "bid-" ++ p)
     (by decide) (fun p => rfl) (fun p => rfl)⟩

/-!
## Registration strictly precedes garbage collection (one deploy)
-/

/-- Whether a deploy event is the garbage-collection call. -/
def eventIsGc : DeployEvent → Bool
  | .gc _ => true
  | _ => false

theorem runStorageUploads_no_gc (o : Oracles) (l : List FileEntry) :
    ∀ e ∈ (runStorageUploads o l).1, eventIsGc e = false := by
  induction l with
  | nil => intro e he; cases he
  | cons f rest ih =>
    intro e he
    unfold runStorageUploads at he
    cases hsid : o.sid f.path with
    | none =>
      rw [hsid] at he
      simp only [List.mem_singleton] at he
      subst he; rfl
    | some s =>
      rw [hsid] at he
      simp only [List.mem_cons] at he
      cases he with
      | inl h => subst h; rfl
      | inr h => exact ih e h

theorem runCdnUploads_no_gc (o : Oracles) (d : String) (l : List FileEntry) :
    ∀ e ∈ (runCdnUploads o d l).1, eventIsGc e = false := by
  induction l with
  | nil => intro e he; cases he
  | cons f rest ih =>
    intro e he
    unfold runCdnUploads at he
    cases hbid : o.bid f.path with
    | none =>
      rw [hbid] at he
      simp only [List.mem_singleton] at he
      subst he; rfl
    | some b =>
      rw [hbid] at he
      simp only [List.mem_cons] at he
      cases he with
      | inl h => subst h; rfl
      | inr h => exact ih e h

theorem runCdnRecords_no_gc (o : Oracles) (l : List AssetRecord) :
    ∀ e ∈ (runCdnRecords o l).1, eventIsGc e = false := by
  induction l with
  | nil => intro e he; cases he
  | cons a rest ih =>
    intro e he
    unfold runCdnRecords at he
    by_cases hok : o.recordOneOk a.path
    · rw [if_pos hok] at he
      simp only [List.mem_cons] at he
      cases he with
      | inl h => subst h; rfl
      | inr h => exact ih e h
    · rw [if_neg hok] at he
      simp only [List.mem_singleton] at he
      subst he; rfl

theorem recordPhase_no_gc (o : Oracles) (all : List AssetRecord) :
    ∀ e ∈ (recordPhase o all).1, eventIsGc e = false := by
  intro e he
  unfold recordPhase at he
  by_cases hAll : all.isEmpty
  · rw [if_pos hAll] at he; cases he
  · rw [if_neg hAll] at he
    have hbatch : ∀ x ∈ (if (all.filter (fun a => truthy a.storageId)).isEmpty
        then ([] : List DeployEvent)
        else [DeployEvent.recordBatch ((all.filter (fun a => truthy a.storageId)).map
          (fun a => a.path))]), eventIsGc x = false := by
      intro x hx
      by_cases hs : (all.filter (fun a => truthy a.storageId)).isEmpty
      · rw [if_pos hs] at hx; cases hx
      · rw [if_neg hs] at hx
        simp only [List.mem_singleton] at hx
        subst hx; rfl
    by_cases hfail : (!(all.filter (fun a => truthy a.storageId)).isEmpty
        && !o.recordBatchOk) = true
    · rw [if_pos hfail] at he
      exact hbatch e he
    · rw [if_neg hfail] at he
      rcases List.mem_append.mp he with h | h
      · exact hbatch e h
      · exact runCdnRecords_no_gc o _ e h

theorem storageEvents_no_gc (o : Oracles) (l : List FileEntry) :
    ∀ e ∈ (if l.isEmpty then ([] : List DeployEvent)
        else DeployEvent.genUrls l.length :: (runStorageUploads o l).1),
      eventIsGc e = false := by
  intro e he
  by_cases hl : l.isEmpty
  · rw [if_pos hl] at he; cases he
  · rw [if_neg hl] at he
    simp only [List.mem_cons] at he
    cases he with
    | inl h => subst h; rfl
    | inr h => exact runStorageUploads_no_gc o l e h

theorem cdnPhaseEvents_no_gc (o : Oracles) (d : String) (cond : Bool)
    (l : List FileEntry) :
    ∀ e ∈ (if cond then runCdnUploads o d l else ([], some [])).1,
      eventIsGc e = false := by
  intro e he
  cases cond with
  | false => cases he
  | true => exact runCdnUploads_no_gc o d l e he

/-- No event issued inside `uploadWithConcurrency` is the gc call: the sweep
can only come from `main`, after the whole upload-and-register block. -/
theorem uploadWithConcurrency_no_gc (files : List FileEntry) (useCdn : Bool)
    (siteUrl : Option String) (d : String) (o : Oracles) :
    ∀ e ∈ (uploadWithConcurrency files useCdn siteUrl d o).events,
      eventIsGc e = false := by
  intro e he
  simp only [uploadWithConcurrency] at he
  cases hsu : (runStorageUploads o (partitionFiles files useCdn siteUrl).2).2 with
  | none =>
    rw [hsu] at he
    exact storageEvents_no_gc o _ e he
  | some sids =>
    rw [hsu] at he
    cases hcu : (if !(partitionFiles files useCdn siteUrl).1.isEmpty && truthy siteUrl
        then runCdnUploads o d (partitionFiles files useCdn siteUrl).1
        else ([], some [])).2 with
    | none =>
      rw [hcu] at he
      rcases List.mem_append.mp he with h | h
      · exact storageEvents_no_gc o _ e h
      · exact cdnPhaseEvents_no_gc o d _ _ e h
    | some cdnAssets =>
      rw [hcu] at he
      rcases List.mem_append.mp he with h | h
      · rcases List.mem_append.mp h with h2 | h2
        · exact storageEvents_no_gc o _ e h2
        · exact cdnPhaseEvents_no_gc o d _ _ e h2
      · exact recordPhase_no_gc o _ e h

/-- A successful `uploadWithConcurrency` run ends with its registration
block: the event list is the upload events followed by the record-phase
events over the accumulated assets, and the record phase succeeded. -/
theorem uploadWithConcurrency_ok_shape (files : List FileEntry) (useCdn : Bool)
    (siteUrl : Option String) (d : String) (o : Oracles)
    (h : (uploadWithConcurrency files useCdn siteUrl d o).ok = true) :
    ∃ pre, (uploadWithConcurrency files useCdn siteUrl d o).events
        = pre ++ (recordPhase o (uploadWithConcurrency files useCdn siteUrl d o).assets).1
      ∧ (recordPhase o (uploadWithConcurrency files useCdn siteUrl d o).assets).2 = true := by
  simp only [uploadWithConcurrency] at h ⊢
  cases hsu : (runStorageUploads o (partitionFiles files useCdn siteUrl).2).2 with
  | none => rw [hsu] at h; simp at h
  | some sids =>
    rw [hsu] at h
    cases hcu : (if !(partitionFiles files useCdn siteUrl).1.isEmpty && truthy siteUrl
        then runCdnUploads o d (partitionFiles files useCdn siteUrl).1
        else ([], some [])).2 with
    | none => rw [hcu] at h; simp at h
    | some cdnAssets =>
      rw [hcu] at h
      dsimp only at h ⊢
      exact ⟨_, rfl, h⟩

theorem runCdnRecords_ok_events (o : Oracles) (l : List AssetRecord)
    (h : (runCdnRecords o l).2 = true) :
    (runCdnRecords o l).1 = l.map (fun a => DeployEvent.recordOne a.path) := by
  induction l with
  | nil => rfl
  | cons a rest ih =>
    simp only [runCdnRecords] at h ⊢
    by_cases hok : o.recordOneOk a.path
    · rw [if_pos hok] at h ⊢
      dsimp only at h ⊢
      rw [List.map_cons, ih h]
    · rw [if_neg hok] at h
      simp at h

/-- A successful record phase registered everything: each CDN asset got its
own `recordAsset` call, and a nonempty storage group got the one batched
`recordAssets` call naming all its paths. -/
theorem recordPhase_ok_records (o : Oracles) (all : List AssetRecord)
    (h : (recordPhase o all).2 = true) :
    (∀ a ∈ all, truthy a.blobId = true →
        DeployEvent.recordOne a.path ∈ (recordPhase o all).1)
    ∧ (all.filter (fun a => truthy a.storageId) ≠ [] →
        DeployEvent.recordBatch ((all.filter (fun a => truthy a.storageId)).map
          (fun a => a.path)) ∈ (recordPhase o all).1) := by
  unfold recordPhase at h ⊢
  by_cases hAll : all.isEmpty
  · have hnil : all = [] := by simpa [List.isEmpty_iff] using hAll
    subst hnil
    exact ⟨fun a ha => absurd ha (by simp), fun hne => absurd rfl hne⟩
  · rw [if_neg hAll] at h ⊢
    by_cases hfail : (!(all.filter (fun a => truthy a.storageId)).isEmpty
        && !o.recordBatchOk) = true
    · rw [if_pos hfail] at h; cases h
    · rw [if_neg hfail] at h ⊢
      constructor
      · intro a ha hblob
        apply List.mem_append_right
        rw [runCdnRecords_ok_events o _ h]
        exact List.mem_map.mpr ⟨a, List.mem_filter.mpr ⟨ha, hblob⟩, rfl⟩
      · intro hne
        apply List.mem_append_left
        have hs : (all.filter (fun a => truthy a.storageId)).isEmpty = false := by
          simpa [List.isEmpty_iff] using hne
        rw [hs]
        simp

/-- C1: within one deploy, the sweep is issued only when the whole
upload-and-register block returned normally; it is then the final event,
strictly after every registration event — and a successful run's event list
contains a `recordAsset` event for every CDN entry and the batched
`recordAssets` event whenever the storage group is nonempty.  On any
failure, no sweep appears in the trace. -/
theorem registration_precedes_gc (files : List FileEntry) (useCdn : Bool)
    (siteUrl : Option String) (d : String) (o : Oracles) :
    (DeployEvent.gc d ∈ mainRun files useCdn siteUrl d o
      ↔ (uploadWithConcurrency files useCdn siteUrl d o).ok = true)
    ∧ (∀ e ∈ (uploadWithConcurrency files useCdn siteUrl d o).events,
        eventIsGc e = false)
    ∧ ((uploadWithConcurrency files useCdn siteUrl d o).ok = true →
        mainRun files useCdn siteUrl d o
          = (uploadWithConcurrency files useCdn siteUrl d o).events
            ++ [DeployEvent.gc d]
        ∧ (∀ a ∈ (uploadWithConcurrency files useCdn siteUrl d o).assets,
            truthy a.blobId = true →
              DeployEvent.recordOne a.path
                ∈ (uploadWithConcurrency files useCdn siteUrl d o).events)
        ∧ (((uploadWithConcurrency files useCdn siteUrl d o).assets.filter
              (fun a => truthy a.storageId)) ≠ [] →
            DeployEvent.recordBatch
                (((uploadWithConcurrency files useCdn siteUrl d o).assets.filter
                  (fun a => truthy a.storageId)).map (fun a => a.path))
              ∈ (uploadWithConcurrency files useCdn siteUrl d o).events))
    ∧ ((uploadWithConcurrency files useCdn siteUrl d o).ok = false →
        mainRun files useCdn siteUrl d o
          = (uploadWithConcurrency files useCdn siteUrl d o).events) := by
  have hnogc := uploadWithConcurrency_no_gc files useCdn siteUrl d o
  refine ⟨?_, hnogc, ?_, ?_⟩
  · constructor
    · intro hmem
      by_contra hok
      have hok2 : (uploadWithConcurrency files useCdn siteUrl d o).ok = false :=
        Bool.eq_false_iff.mpr hok
      simp only [mainRun] at hmem
      rw [hok2] at hmem
      simp only [Bool.false_eq_true, if_false] at hmem
      have := hnogc _ hmem
      simp [eventIsGc] at this
    · intro hok
      simp only [mainRun]
      rw [hok]
      simp
  · intro hok
    obtain ⟨pre, hpre, hrp⟩ :=
      uploadWithConcurrency_ok_shape files useCdn siteUrl d o hok
    obtain ⟨hone, hbatch⟩ := recordPhase_ok_records o _ hrp
    refine ⟨?_, ?_, ?_⟩
    · simp only [mainRun]
      rw [hok]
      simp
    · intro a ha hblob
      rw [hpre]
      exact List.mem_append_right pre (hone a ha hblob)
    · intro hne
      rw [hpre]
      exact List.mem_append_right pre (hbatch hne)
  · intro hok
    simp only [mainRun]
    rw [hok]
    simp

/-- Witness for C1 on a two-file storage-only deploy with all calls
succeeding. -/
theorem registration_precedes_gc_witness :
    ((uploadWithConcurrency [⟨"/index.html", "th"⟩, ⟨"/app.js", "aj"⟩] false
        none "d1"
        ⟨fun p => some ("sid-" ++ p), fun p => some ("bid-" ++ p), true,
         fun _ => true⟩).ok = true)
    ∧ (mainRun [⟨"/index.html", "th"⟩, ⟨"/app.js", "aj"⟩] false none "d1"
        ⟨fun p => some ("sid-" ++ p), fun p => some ("bid-" ++ p), true,
         fun _ => true⟩
      = (uploadWithConcurrency [⟨"/index.html", "th"⟩, ⟨"/app.js", "aj"⟩] false
          none "d1"
          ⟨fun p => some ("sid-" ++ p), fun p => some ("bid-" ++ p), true,
           fun _ => true⟩).events ++ [DeployEvent.gc "d1"]) :=
  ⟨by decide,
   ((registration_precedes_gc [⟨"/index.html", "th"⟩, ⟨"/app.js", "aj"⟩] false
      none "d1"
      ⟨fun p => some ("sid-" ++ p), fun p => some ("bid-" ++ p), true,
       fun _ => true⟩).2.2.1 (by decide)).1⟩

/-!
## Failure behaviour of the worker pool
-/

theorem poolDrain_error_shape (outcomes : Nat → Bool) (fuel : Nat)
    (pending sched : List Nat)
    (h : (poolDrain outcomes fuel pending sched).error = true) :
    ∃ evs j, (poolDrain outcomes fuel pending sched).events
        = evs ++ [PoolEvent.settle j false]
      ∧ outcomes j = false ∧ ∀ e ∈ evs, isSettleFail e = false := by
  induction fuel generalizing pending sched with
  | zero => simp [poolDrain] at h
  | succ fuel ih =>
    cases pending with
    | nil => simp [poolDrain] at h
    | cons p ps =>
      simp only [poolDrain] at h ⊢
      by_cases hout : outcomes (pickPending sched (p :: ps)).1
      · rw [if_pos hout] at h ⊢
        dsimp only at h ⊢
        obtain ⟨evs, j, hev, hj, hclean⟩ := ih _ _ h
        refine ⟨PoolEvent.settle (pickPending sched (p :: ps)).1 true :: evs, j,
          ?_, hj, ?_⟩
        · simp [hev]
        · intro e he
          rcases List.mem_cons.mp he with rfl | hmem
          · rfl
          · exact hclean e hmem
      · rw [if_neg hout]
        exact ⟨[], (pickPending sched (p :: ps)).1, rfl,
          Bool.eq_false_iff.mpr hout, fun e he => absurd he (List.not_mem_nil e)⟩

theorem poolLoop_error_shape (outcomes : Nat → Bool) (conc : Nat)
    (remaining pending sched : List Nat)
    (h : (poolLoop outcomes conc remaining pending sched).error = true) :
    ∃ evs j, (poolLoop outcomes conc remaining pending sched).events
        = evs ++ [PoolEvent.settle j false]
      ∧ outcomes j = false ∧ ∀ e ∈ evs, isSettleFail e = false := by
  induction remaining generalizing pending sched with
  | nil =>
    simp only [poolLoop] at h ⊢
    exact poolDrain_error_shape outcomes _ _ _ h
  | cons i rest ih =>
    simp only [poolLoop] at h ⊢
    by_cases hconc : conc ≤ (pending ++ [i]).length
    · rw [if_pos hconc] at h ⊢
      by_cases hout : outcomes (pickPending sched (pending ++ [i])).1
      · rw [if_pos hout] at h ⊢
        dsimp only at h ⊢
        obtain ⟨evs, j, hev, hj, hclean⟩ := ih _ _ h
        refine ⟨PoolEvent.start i
            :: PoolEvent.settle (pickPending sched (pending ++ [i])).1 true
            :: evs, j, ?_, hj, ?_⟩
        · simp [hev]
        · intro e he
          rcases List.mem_cons.mp he with rfl | hmem
          · rfl
          · rcases List.mem_cons.mp hmem with rfl | hmem2
            · rfl
            · exact hclean e hmem2
      · rw [if_neg hout]
        refine ⟨[PoolEvent.start i], (pickPending sched (pending ++ [i])).1,
          rfl, Bool.eq_false_iff.mpr hout, ?_⟩
        intro e he
        rcases List.mem_singleton.mp he with rfl
        rfl
    · rw [if_neg hconc] at h ⊢
      dsimp only at h ⊢
      obtain ⟨evs, j, hev, hj, hclean⟩ := ih _ _ h
      refine ⟨PoolEvent.start i :: evs, j, ?_, hj, ?_⟩
      · simp [hev]
      · intro e he
        rcases List.mem_cons.mp he with rfl | hmem
        · rfl
        · exact hclean e hmem

/-- C4 counterexample: with concurrency 2, task 0 in flight and task 1
settling first with a failure, the pool run surfaces the error while task 0
is still unsettled — the in-flight transfer is not awaited before the error
propagates. -/
theorem pool_failure_leaves_inflight_unsettled :
    (poolRun (fun i => i == 0) 2 2 [1]).error = true
    ∧ (poolRun (fun i => i == 0) 2 2 [1]).unsettled = [0]
    ∧ (poolRun (fun i => i == 0) 2 2 [1]).events
        = [PoolEvent.start 0, PoolEvent.start 1, PoolEvent.settle 1 false] := by
  decide

/-- C4 amended: when a pool run errors, its event trace ends at the first
failed settling — after the failure no further transfer is started and no
further settling is awaited (the remaining in-flight transfers are left
running, unobserved, as the counterexample's nonempty `unsettled` shows). -/
theorem pool_error_ends_at_first_failure (outcomes : Nat → Bool) (conc n : Nat)
    (sched : List Nat) (h : (poolRun outcomes conc n sched).error = true) :
    ∃ evs j, (poolRun outcomes conc n sched).events
        = evs ++ [PoolEvent.settle j false]
      ∧ outcomes j = false ∧ ∀ e ∈ evs, isSettleFail e = false :=
  poolLoop_error_shape outcomes conc (List.range n) [] sched h

/-- Witness for the amended C4 at the counterexample input. -/
theorem pool_error_ends_at_first_failure_witness :
    (poolRun (fun i => i == 0) 2 2 [1]).error = true
    ∧ ∃ evs j, (poolRun (fun i => i == 0) 2 2 [1]).events
        = evs ++ [PoolEvent.settle j false]
      ∧ (fun i => i == 0) j = false ∧ ∀ e ∈ evs, isSettleFail e = false :=
  ⟨by decide, pool_error_ends_at_first_failure (fun i => i == 0) 2 2 [1] (by decide)⟩

/-!
## The empty deploy
-/

/-- C5 counterexample: a deploy over the empty file set still issues the
sweep with the fresh deployment id, and that sweep deletes the previous
generation's asset — the registry is not left unchanged. -/
theorem empty_deploy_not_noop_counterexample :
    mainRun [] false none "d2" ⟨fun _ => none, fun _ => none, true, fun _ => true⟩
      = [DeployEvent.gc "d2"]
    ∧ (gcOldAssets [⟨1, "/index.html", some "s1", none, "text/html", "d1"⟩]
        "d2").db = []
    ∧ ([⟨1, "/index.html", some "s1", none, "text/html", "d1"⟩] : Registry) ≠ [] := by
  refine ⟨by decide, by decide, by decide⟩

/-- C5 amended: a deploy over an empty file set completes successfully, but
it is not a registry no-op: its one registry mutation is
`gcOldAssets(freshId)`, and since no existing row carries the fresh id the
sweep deletes every row and returns all their storage references. -/
theorem empty_deploy_sweeps_all (db : Registry) (useCdn : Bool)
    (siteUrl : Option String) (d : String) (o : Oracles)
    (hfresh : ∀ a ∈ db, a.deploymentId ≠ d) :
    (uploadWithConcurrency [] useCdn siteUrl d o).ok = true
    ∧ mainRun [] useCdn siteUrl d o = [DeployEvent.gc d]
    ∧ (gcOldAssets db d).db = []
    ∧ (gcOldAssets db d).storageIds = db.filterMap (fun a => storedOpt a.storageId)
    ∧ (gcOldAssets db d).blobIds = db.filterMap (fun a => storedOpt a.blobId) := by
  have hstale : db.filter (fun a => a.deploymentId != d) = db := by
    apply List.filter_eq_self.mpr
    intro a ha
    simp [hfresh a ha]
  have hids : (gcLoop d db).2.2 = db.map (fun a => a.id) := by
    rw [gcLoop_ids, hstale]
  refine ⟨rfl, rfl, ?_, ?_, ?_⟩
  · show db.filter _ = []
    rw [hids]
    apply List.filter_eq_nil_iff.mpr
    intro a ha
    simp [List.mem_map]
    exact ⟨a, ha, rfl⟩
  · rw [show (gcOldAssets db d).storageIds = (gcLoop d db).1 from rfl,
      gcLoop_storageIds, hstale]
  · rw [show (gcOldAssets db d).blobIds = (gcLoop d db).2.1 from rfl,
      gcLoop_blobIds, hstale]

/-- Witness for the amended C5 on a one-row registry of the old generation. -/
theorem empty_deploy_sweeps_all_witness :
    (∀ a ∈ ([⟨1, "/a", some "s1", none, "text/html", "d1"⟩] : Registry),
        a.deploymentId ≠ "d2")
    ∧ ((uploadWithConcurrency [] false none "d2"
          ⟨fun _ => none, fun _ => none, true, fun _ => true⟩).ok = true
      ∧ mainRun [] false none "d2"
          ⟨fun _ => none, fun _ => none, true, fun _ => true⟩ = [DeployEvent.gc "d2"]
      ∧ (gcOldAssets [⟨1, "/a", some "s1", none, "text/html", "d1"⟩] "d2").db = []
      ∧ (gcOldAssets [⟨1, "/a", some "s1", none, "text/html", "d1"⟩] "d2").storageIds
          = ([⟨1, "/a", some "s1", none, "text/html", "d1"⟩] : Registry).filterMap
              (fun a => storedOpt a.storageId)
      ∧ (gcOldAssets [⟨1, "/a", some "s1", none, "text/html", "d1"⟩] "d2").blobIds
          = ([⟨1, "/a", some "s1", none, "text/html", "d1"⟩] : Registry).filterMap
              (fun a => storedOpt a.blobId)) :=
  ⟨by decide,
   empty_deploy_sweeps_all [⟨1, "/a", some "s1", none, "text/html", "d1"⟩]
     false none "d2" ⟨fun _ => none, fun _ => none, true, fun _ => true⟩
     (by decide)⟩

end SelfHosting
